import Mathlib

/-!
# NeuralVault: a verified shallow embedding

This file embeds the core of the NeuralVault embedded document store
(an append-only binary log with an in-memory position index, plus a pure
query evaluator) into Lean, and proves properties of the embedding.

Modelling conventions:
* Rust `f64` numbers are idealised as `ℚ`; `f64::EPSILON` (`2^-52`) becomes
  the exact rational `1 / 2^52`.  NaN/infinity behaviour is outside the model.
* `DateTime<Utc>` timestamps are opaque; they are modelled as `Nat` values
  threaded through the operations (`Utc::now()` becomes an explicit `now`
  argument).
* `HashMap` (both the document field map and the position index) is modelled
  as an association list with replace-on-insert semantics; lookup finds the
  unique entry for a key.
* The `bincode` serializer is an external library, so it is kept abstract:
  operations are parameterised by `ser : NVDocument → List Nat` and
  `deser : List Nat → Option NVDocument` (bytes are `Nat` values `< 256`).
* The log file is a flat `List Nat` of bytes; `seek`/`read_exact`/`write_all`
  become list slicing and updating, with `read_exact` hitting end-of-file
  modelled as a failing slice.
* UUID generation is nondeterministic, so `create` takes the fresh
  identifier as an argument.
-/

/-- Error type mirroring `NeuralVaultError` in `error.rs`.  Each `String`
payload carries the formatted message from the Rust side. -/
inductive NeuralVaultError where
  | DocumentNotFound (msg : String)
  | CollectionNotFound (msg : String)
  | InvalidQuery (msg : String)
  | StorageError (msg : String)
  | SerializationError (msg : String)
  | IoError (msg : String)
  | LockError (msg : String)
  | IndexError (msg : String)
  | NotInitialized
  | AlreadyExists (msg : String)
  | InvalidConfiguration (msg : String)
  | TransactionError (msg : String)
  | ValidationError (msg : String)
deriving DecidableEq

/-- `NVResult<T> = Result<T, NeuralVaultError>`. -/
abbrev NVResult (α : Type) := Except NeuralVaultError α

/-- The dynamically typed value sum from `models.rs` (`NVValue`).
`Number(f64)` is modelled with `ℚ`; `Object(HashMap<String, NVValue>)`
is modelled as an association list. -/
inductive NVValue where
  | null
  | bool (b : Bool)
  | number (n : ℚ)
  | str (s : String)
  | array (items : List NVValue)
  | object (fields : List (String × NVValue))

/-- Tags naming the six shapes of `NVValue`. -/
inductive NVKind where
  | null | bool | number | str | array | object
deriving DecidableEq

/-- The shape of a value. -/
def NVValue.kind : NVValue → NVKind
  | .null => .null
  | .bool _ => .bool
  | .number _ => .number
  | .str _ => .str
  | .array _ => .array
  | .object _ => .object

/-- Replace-on-insert for an association list; models `HashMap::insert`. -/
def assocInsert {β : Type} (k : String) (v : β) : List (String × β) → List (String × β)
  | [] => [(k, v)]
  | (k', v') :: rest => if k' = k then (k, v) :: rest else (k', v') :: assocInsert k v rest

/-- First-match lookup for an association list; models `HashMap::get`. -/
def assocLookup {β : Type} (k : String) : List (String × β) → Option β
  | [] => none
  | (k', v) :: rest => if k' = k then some v else assocLookup k rest

/-- A document record (`NVDocument` in `models.rs`). -/
structure NVDocument where
  id : String
  collection : String
  data : List (String × NVValue)
  created_at : Nat
  updated_at : Nat
  deleted : Bool

/-- `NVDocument::new`: both timestamps start at the creation instant and the
document is live. -/
def NVDocument.new (id collection : String) (data : List (String × NVValue))
    (now : Nat) : NVDocument :=
  { id := id, collection := collection, data := data,
    created_at := now, updated_at := now, deleted := false }

/-- `NVDocument::get`: field lookup in the data map. -/
def NVDocument.get (d : NVDocument) (field : String) : Option NVValue :=
  assocLookup field d.data

/-- `NVDocument::set`: insert-or-replace a field and bump the modification
timestamp to the current instant. -/
def NVDocument.set (d : NVDocument) (field : String) (value : NVValue)
    (now : Nat) : NVDocument :=
  { d with data := assocInsert field value d.data, updated_at := now }

/-- The query operators from `models.rs`. -/
inductive QueryOperator where
  | Equals | NotEquals
  | GreaterThan | GreaterThanOrEqual | LessThan | LessThanOrEqual
  | Contains | StartsWith | EndsWith
  | In | NotIn
deriving DecidableEq

/-- A single query condition. -/
structure QueryCondition where
  field : String
  operator : QueryOperator
  value : NVValue

/-- Logical connectors between conditions. -/
inductive LogicalOperator where
  | And | Or
deriving DecidableEq

/-- The query descriptor (`NVQuery` in `models.rs`). -/
structure NVQuery where
  collection : String
  conditions : List QueryCondition
  logical_operators : List LogicalOperator
  order_by : Option String
  order_desc : Bool
  limit : Option Nat
  skip : Option Nat

/-- A flat set-or-insert update instruction. -/
structure UpdateOperation where
  field : String
  value : NVValue

/-! ## Query evaluator (`query/processor.rs`) -/

/-- `f64::EPSILON` as an exact rational. -/
def f64Epsilon : ℚ := Rat.divInt 1 (2 ^ 52)

/-- Absolute value written with the primitive field accessors, mirroring
`f64::abs`. -/
def ratAbs (q : ℚ) : ℚ := if q.num < 0 then -q else q

/-- `QueryProcessor::values_equal`.  Note the catch-all arm: it covers both
cross-shape pairs and the `Array`/`Object` shapes. -/
def values_equal : NVValue → NVValue → Bool
  | .null, .null => true
  | .bool a, .bool b => a == b
  | .number a, .number b => decide (ratAbs (a - b) < f64Epsilon)
  | .str a, .str b => a == b
  | _, _ => false

/-- `QueryProcessor::compare_numeric`: the numeric comparator applies only to
a pair of numbers; every other pair yields `false`. -/
def compare_numeric (left right : NVValue) (comparator : ℚ → ℚ → Bool) : Bool :=
  match left, right with
  | .number a, .number b => comparator a b
  | _, _ => false

/-- `QueryProcessor::string_contains`: substring test on the character
sequences (for valid UTF-8, byte-level and character-level substring
containment coincide). -/
def string_contains (left right : NVValue) : Bool :=
  match left, right with
  | .str haystack, .str needle =>
    (List.range (haystack.data.length + 1)).any
      (fun i => needle.data.isPrefixOf (haystack.data.drop i))
  | _, _ => false

/-- `QueryProcessor::string_starts_with`. -/
def string_starts_with (left right : NVValue) : Bool :=
  match left, right with
  | .str s, .str p => p.data.isPrefixOf s.data
  | _, _ => false

/-- `QueryProcessor::string_ends_with`. -/
def string_ends_with (left right : NVValue) : Bool :=
  match left, right with
  | .str s, .str suffix => suffix.data.isSuffixOf s.data
  | _, _ => false

/-- `QueryProcessor::value_in_array`: membership via `values_equal`; a
non-`Array` right operand yields `false`. -/
def value_in_array (value arr : NVValue) : Bool :=
  match arr with
  | .array items => items.any (fun item => values_equal value item)
  | _ => false

/-- `QueryProcessor::compare_values`. -/
def compare_values (left right : NVValue) : QueryOperator → Bool
  | .Equals => values_equal left right
  | .NotEquals => !values_equal left right
  | .GreaterThan => compare_numeric left right (fun a b => decide (a > b))
  | .GreaterThanOrEqual => compare_numeric left right (fun a b => decide (a ≥ b))
  | .LessThan => compare_numeric left right (fun a b => decide (a < b))
  | .LessThanOrEqual => compare_numeric left right (fun a b => decide (a ≤ b))
  | .Contains => string_contains left right
  | .StartsWith => string_starts_with left right
  | .EndsWith => string_ends_with left right
  | .In => value_in_array left right
  | .NotIn => !value_in_array left right

/-- `QueryProcessor::evaluate_condition`: an absent field yields `false`. -/
def evaluate_condition (doc : NVDocument) (condition : QueryCondition) : Bool :=
  match doc.get condition.field with
  | none => false
  | some v => compare_values v condition.value condition.operator

/-- Combining the running result with the next condition's result. -/
def applyLogical : LogicalOperator → Bool → Bool → Bool
  | .And, a, b => a && b
  | .Or, a, b => a || b

/-- The loop body of `QueryProcessor::matches_query`: walk the connector list
with its position `i`, combining with condition `i + 1`; the loop breaks as
soon as `i + 1` is out of range. -/
def matchLoop (doc : NVDocument) (conds : List QueryCondition) (result : Bool)
    (i : Nat) : List LogicalOperator → Bool
  | [] => result
  | op :: rest =>
    match conds[i + 1]? with
    | none => result
    | some c =>
      matchLoop doc conds (applyLogical op result (evaluate_condition doc c)) (i + 1) rest

/-- `QueryProcessor::matches_query`: an empty condition list matches
everything; otherwise condition 0 seeds the loop over the connectors. -/
def matches_query (doc : NVDocument) (query : NVQuery) : Bool :=
  match query.conditions with
  | [] => true
  | c0 :: _ =>
    matchLoop doc query.conditions (evaluate_condition doc c0) 0 query.logical_operators

/-- The comparator closure inside `QueryProcessor::sort_documents`, with the
Rust match arms in source order (`partial_cmp` is total on `ℚ`). -/
def documentOrdering (field : String) (a b : NVDocument) : Ordering :=
  match a.get field, b.get field with
  | some (.number x), some (.number y) =>
    if x < y then .lt else if y < x then .gt else .eq
  | some (.str x), some (.str y) => charsCompare x.data y.data
  | some (.bool x), some (.bool y) => boolCompare x y
  | some _, none => .lt
  | none, some _ => .gt
  | _, _ => .eq
where
  /-- Byte-lexicographic string comparison (`Ord` on Rust `String`); for
  valid UTF-8 this agrees with code-point lexicographic comparison. -/
  charsCompare : List Char → List Char → Ordering
    | [], [] => .eq
    | [], _ :: _ => .lt
    | _ :: _, [] => .gt
    | a :: as, b :: bs =>
      if a.toNat < b.toNat then .lt
      else if b.toNat < a.toNat then .gt
      else charsCompare as bs
  /-- `Ord` on Rust `bool`: `false < true`. -/
  boolCompare : Bool → Bool → Ordering
    | false, true => .lt
    | true, false => .gt
    | _, _ => .eq

/-- The comparator handed to `sort_by`, after the descending flag reverses
the ordering. -/
def sortOrdering (field : String) (descending : Bool) (a b : NVDocument) : Ordering :=
  let ordering := documentOrdering field a b
  if descending then ordering.swap else ordering

/-- The not-greater relation induced by the comparator: `sort_by` produces a
stably sorted list with respect to it. -/
def sortLe (field : String) (descending : Bool) (a b : NVDocument) : Prop :=
  sortOrdering field descending a b ≠ Ordering.gt

instance (field : String) (descending : Bool) : DecidableRel (sortLe field descending) :=
  fun a b => by unfold sortLe; infer_instance

/-- `QueryProcessor::sort_documents`: Rust `slice::sort_by` is a stable sort;
it is modelled by stable insertion sort over `sortLe`. -/
def sort_documents (documents : List NVDocument) (field : String)
    (descending : Bool) : List NVDocument :=
  List.insertionSort (sortLe field descending) documents

/-- `QueryProcessor::filter`: match, then order, then skip, then limit; the
result is always `Ok`. -/
def QueryProcessor.filter (documents : List NVDocument) (query : NVQuery) :
    NVResult (List NVDocument) :=
  if documents.isEmpty then .ok []
  else
    let results := documents.filter (fun doc => matches_query doc query)
    let results := match query.order_by with
      | some order_field => sort_documents results order_field query.order_desc
      | none => results
    let results := match query.skip with
      | some skip => results.drop skip
      | none => results
    let results := match query.limit with
      | some limit => results.take limit
      | none => results
    .ok results

/-! ## Storage engine (`storage/file_manager.rs`)

The log file is a byte list; a record is laid out little-endian as
`length:u32 | checksum:u64 | payload:bytes[length] | tombstone:u8`. -/

/-- Little-endian decoding of a byte list. -/
def decodeLE (bs : List Nat) : Nat := bs.foldr (fun b acc => b + 256 * acc) 0

/-- Little-endian encoding of `x` into exactly `n` bytes (`to_le_bytes`);
encodes `x % 256 ^ n`. -/
def leBytes : Nat → Nat → List Nat
  | 0, _ => []
  | n + 1, x => x % 256 :: leBytes n (x / 256)

/-- One step of the FNV-1a hash: xor in a byte, then multiply by the FNV
prime with 64-bit wrap-around. -/
def fnvStep (hash b : Nat) : Nat := ((hash ^^^ b) * 0x100000001b3) % 2 ^ 64

/-- `FileManager::calculate_checksum`: 64-bit FNV-1a over the payload. -/
def calculate_checksum (data : List Nat) : Nat :=
  data.foldl fnvStep 0xcbf29ce484222325

/-- `read_exact` semantics: the `n` bytes of `file` starting at `off`, or
`none` when the file is too short. -/
def bytesAt (file : List Nat) (off n : Nat) : Option (List Nat) :=
  if off + n ≤ file.length then some ((file.drop off).take n) else none

/-- An index entry: byte offset of a record and its payload length. -/
structure StoragePosition where
  file_offset : Nat
  length : Nat
deriving DecidableEq

/-- The storage-engine state: log bytes plus the position index. -/
structure FMState where
  file : List Nat
  index : List (String × StoragePosition)

/-- The empty store: an empty log file and an empty index. -/
def FMState.empty : FMState := { file := [], index := [] }

/-- The byte image of one record with the given payload and tombstone byte. -/
def encodeRecord (payload : List Nat) (tombstone : Nat) : List Nat :=
  leBytes 4 payload.length ++ leBytes 8 (calculate_checksum payload) ++ payload ++ [tombstone]

/-- `FileManager::append`: serialize, checksum, write the four-part record at
the end of the log, then upsert the index (`len as u32` is the payload length
reduced mod `2^32`). -/
def FileManager.append (ser : NVDocument → List Nat) (st : FMState)
    (document : NVDocument) : FMState × StoragePosition :=
  let data := ser document
  let data_len := data.length % 2 ^ 32
  let offset := st.file.length
  let position : StoragePosition := { file_offset := offset, length := data_len }
  ({ file := st.file ++ leBytes 4 data.length ++ leBytes 8 (calculate_checksum data)
        ++ data ++ [0],
     index := assocInsert document.id position st.index }, position)

/-- `FileManager::read_at`: parse length, checksum, payload and tombstone,
verify the checksum, reject tombstoned records, then deserialize.  A short
read surfaces as an I/O error. -/
def FileManager.read_at (deser : List Nat → Option NVDocument) (file : List Nat)
    (position : StoragePosition) : NVResult NVDocument :=
  match bytesAt file position.file_offset 4 with
  | none => .error (.IoError "failed to fill whole buffer")
  | some len_buf =>
    let data_len := decodeLE len_buf
    match bytesAt file (position.file_offset + 4) 8 with
    | none => .error (.IoError "failed to fill whole buffer")
    | some checksum_buf =>
      let expected_checksum := decodeLE checksum_buf
      match bytesAt file (position.file_offset + 12) data_len with
      | none => .error (.IoError "failed to fill whole buffer")
      | some data =>
        match bytesAt file (position.file_offset + 12 + data_len) 1 with
        | none => .error (.IoError "failed to fill whole buffer")
        | some tombstone =>
          if calculate_checksum data ≠ expected_checksum then
            .error (.StorageError "Checksum mismatch - data corruption detected")
          else if tombstone = [1] then
            .error (.DocumentNotFound "Document has been deleted")
          else
            match deser data with
            | some document => .ok document
            | none => .error (.SerializationError "bincode")

/-- `FileManager::read`: index lookup, then a point read. -/
def FileManager.read (deser : List Nat → Option NVDocument) (st : FMState)
    (id : String) : NVResult NVDocument :=
  match assocLookup id st.index with
  | none => .error (.DocumentNotFound id)
  | some position => FileManager.read_at deser st.file position

/-- `FileManager::mark_deleted`: overwrite the single tombstone byte at
`offset + 4 + 8 + length` with `1`; the index is left untouched.  (In every
reachable state the index points inside the file, so the in-range `List.set`
models the in-place overwrite.) -/
def FileManager.mark_deleted (st : FMState) (id : String) : NVResult FMState :=
  match assocLookup id st.index with
  | none => .error (.DocumentNotFound id)
  | some position =>
    .ok { st with
          file := st.file.set (position.file_offset + 4 + 8 + position.length) 1 }

/-- The loop of `FileManager::scan_all`: a sequential pass from `pos`.  A
file too short for the 4-byte length header is clean end-of-data; any other
short read is an I/O error.  Records whose tombstone byte is `0` and whose
payload deserializes are kept, in physical order.  The `fuel` argument makes
the recursion structural; every iteration advances `pos` by at least 13
bytes, so a fuel of `file.length + 1` (as passed by `scan_all`) is never
exhausted and the `fuel = 0` case is unreachable. -/
def scanAllLoop (deser : List Nat → Option NVDocument) (file : List Nat) :
    Nat → Nat → NVResult (List NVDocument)
  | 0, _ => .ok []
  | fuel + 1, pos =>
    if file.length < pos + 4 then .ok []
    else
      let data_len := decodeLE ((file.drop pos).take 4)
      match bytesAt file (pos + 12) data_len with
      | none => .error (.IoError "failed to fill whole buffer")
      | some data =>
        match bytesAt file (pos + 12 + data_len) 1 with
        | none => .error (.IoError "failed to fill whole buffer")
        | some tombstone =>
          match scanAllLoop deser file fuel (pos + 13 + data_len) with
          | .error e => .error e
          | .ok documents =>
            if tombstone = [0] then
              match deser data with
              | some doc => .ok (doc :: documents)
              | none => .ok documents
            else .ok documents

/-- `FileManager::scan_all`: scan the whole log from offset 0. -/
def FileManager.scan_all (deser : List Nat → Option NVDocument) (file : List Nat) :
    NVResult (List NVDocument) :=
  scanAllLoop deser file (file.length + 1) 0

/-- The offset-recomputation walk of `FileManager::rebuild_index`: the
documents produced by `scan_all` (live records only) are laid out from
offset 0, each record assumed to occupy `4 + 8 + len + 1` bytes where `len`
re-serializes the document. -/
def rebuildWalk (ser : NVDocument → List Nat) :
    List NVDocument → Nat → List (String × StoragePosition) →
    List (String × StoragePosition)
  | [], _, index => index
  | doc :: rest, pos, index =>
    let data_len := (ser doc).length % 2 ^ 32
    rebuildWalk ser rest (pos + 4 + 8 + data_len + 1)
      (assocInsert doc.id { file_offset := pos, length := data_len } index)

/-- `FileManager::rebuild_index`: clear the index, then reinsert every
document returned by `scan_all` at the recomputed offsets. -/
def FileManager.rebuild_index (ser : NVDocument → List Nat)
    (deser : List Nat → Option NVDocument) (st : FMState) : NVResult FMState :=
  match FileManager.scan_all deser st.file with
  | .error e => .error e
  | .ok documents => .ok { st with index := rebuildWalk ser documents 0 [] }

/-! ## Vault facade (`database.rs`) -/

/-- The facade state: storage plus the initialization flag. -/
structure VaultState where
  storage : FMState
  initialized : Bool

/-- `NeuralVault::create`: build a fresh document (the generated UUID is the
`id` argument) and append it. -/
def NeuralVault.create (ser : NVDocument → List Nat) (vs : VaultState)
    (id collection : String) (data : List (String × NVValue)) (now : Nat) :
    NVResult (VaultState × String) :=
  if !vs.initialized then .error .NotInitialized
  else
    let document := NVDocument.new id collection data now
    let (st', _) := FileManager.append ser vs.storage document
    .ok ({ vs with storage := st' }, id)

/-- `NeuralVault::update_by_id`: read, apply each update via
`NVDocument::set`, then append the updated copy. -/
def NeuralVault.update_by_id (ser : NVDocument → List Nat)
    (deser : List Nat → Option NVDocument) (vs : VaultState) (id : String)
    (updates : List UpdateOperation) (now : Nat) : NVResult VaultState :=
  if !vs.initialized then .error .NotInitialized
  else
    match FileManager.read deser vs.storage id with
    | .error e => .error e
    | .ok document =>
      let document := updates.foldl
        (fun d u => NVDocument.set d u.field u.value now) document
      let (st', _) := FileManager.append ser vs.storage document
      .ok { vs with storage := st' }

/-- `NeuralVault::kill_by_id`: soft-delete through `mark_deleted`. -/
def NeuralVault.kill_by_id (vs : VaultState) (id : String) : NVResult VaultState :=
  if !vs.initialized then .error .NotInitialized
  else
    match FileManager.mark_deleted vs.storage id with
    | .error e => .error e
    | .ok st' => .ok { vs with storage := st' }

/-- Byte-lexicographic order on strings (Rust `Ord` for `String`), as a
decidable Bool-valued relation on the character sequences. -/
def strLeChars : List Char → List Char → Bool
  | [], _ => true
  | _ :: _, [] => false
  | a :: as, b :: bs =>
    if a.toNat < b.toNat then true
    else if b.toNat < a.toNat then false
    else strLeChars as bs

/-- The ordering used by `Vec::<String>::sort`. -/
def strLe (a b : String) : Prop := strLeChars a.data b.data = true

instance : DecidableRel strLe := fun a b => by unfold strLe; infer_instance

/-- Rust `Vec::dedup`: remove consecutive duplicates. -/
def dedupAdjacent : List String → List String
  | [] => []
  | [a] => [a]
  | a :: b :: rest =>
    if a = b then dedupAdjacent (b :: rest) else a :: dedupAdjacent (b :: rest)

/-- `NeuralVault::collections`: full log scan, project the collection names,
sort (a stable sort modelled by insertion sort) and dedup. -/
def NeuralVault.collections (deser : List Nat → Option NVDocument)
    (vs : VaultState) : NVResult (List String) :=
  if !vs.initialized then .error .NotInitialized
  else
    match FileManager.scan_all deser vs.storage.file with
    | .error e => .error e
    | .ok documents =>
      .ok (dedupAdjacent
        (List.insertionSort strLe (documents.map (fun doc => doc.collection))))

/-- The specified left-to-right fold of a condition list: seed with condition
0, then combine the running boolean with condition `i + 1`'s result using
connector `i`. -/
def specLeftFold (doc : NVDocument) (c0 : QueryCondition)
    (pairs : List (LogicalOperator × QueryCondition)) : Bool :=
  pairs.foldl (fun acc p => applyLogical p.1 acc (evaluate_condition doc p.2))
    (evaluate_condition doc c0)

/-! ## Concrete material for witnesses and counterexamples -/

/-- A concrete document used to instantiate universally quantified claims. -/
def docW : NVDocument :=
  { id := "w1", collection := "users",
    data := [("age", .number 23), ("name", .str "bob")],
    created_at := 0, updated_at := 0, deleted := false }

/-- A query with no conditions. -/
def qEmptyW : NVQuery :=
  { collection := "users", conditions := [], logical_operators := [],
    order_by := none, order_desc := false, limit := none, skip := none }

/-- The condition `name == "bob"`. -/
def condNameW : QueryCondition := { field := "name", operator := .Equals, value := .str "bob" }

/-- The condition `age > 22`. -/
def condAgeW : QueryCondition := { field := "age", operator := .GreaterThan, value := .number 22 }

/-- A well-formed two-condition query: `name == "bob" AND age > 22`. -/
def qTwoW : NVQuery :=
  { collection := "users", conditions := [condNameW, condAgeW],
    logical_operators := [.And],
    order_by := none, order_desc := false, limit := none, skip := none }

/-- A malformed query with one condition but two connectors. -/
def qSurplusW : NVQuery :=
  { collection := "users", conditions := [condNameW],
    logical_operators := [.And, .Or],
    order_by := none, order_desc := false, limit := none, skip := none }

/-- A malformed query with three conditions but one connector. -/
def qDeficitW : NVQuery :=
  { collection := "users", conditions := [condNameW, condAgeW, condNameW],
    logical_operators := [.Or],
    order_by := none, order_desc := false, limit := none, skip := none }

/-- The spec's sort example: a document carrying only `{a: 1}`. -/
def docM1 : NVDocument :=
  { id := "m1", collection := "users", data := [("a", .number 1)],
    created_at := 0, updated_at := 0, deleted := false }

/-- The spec's sort example: a document carrying only `{b: 2}`. -/
def docM2 : NVDocument :=
  { id := "m2", collection := "users", data := [("b", .number 2)],
    created_at := 0, updated_at := 0, deleted := false }

/-- The character-level lexicographic strict order used to state that string
sorting is lexicographic. -/
def charLex : List Char → List Char → Prop :=
  List.Lex (fun a b : Char => a.toNat < b.toNat)

/-- A concrete document for storage scenarios. -/
def docA : NVDocument :=
  { id := "a", collection := "users", data := [],
    created_at := 0, updated_at := 0, deleted := false }

/-- A second concrete document for storage scenarios. -/
def docB : NVDocument :=
  { id := "b", collection := "users", data := [],
    created_at := 0, updated_at := 0, deleted := false }

/-- A concrete stand-in for the external `bincode` serializer, injective on
the two scenario documents. -/
def serToy : NVDocument → List Nat :=
  fun d => if d.id = "a" then [7] else [9]

/-- The matching concrete deserializer (round-trips with `serToy` on the
scenario documents). -/
def deserToy : List Nat → Option NVDocument :=
  fun bs => if bs = [7] then some docA else if bs = [9] then some docB else none

/-- The vault state holding the single record appended for `docA`. -/
def vaultW : VaultState :=
  { storage := (FileManager.append serToy FMState.empty docA).1, initialized := true }

/-- The vault state expected after an empty `update_by_id` of `docA`: one
more physical record for the unchanged document, with the index repointed. -/
def vaultAfterUpdateW : VaultState :=
  { storage :=
      { file := vaultW.storage.file ++ leBytes 4 (serToy docA).length ++
          leBytes 8 (calculate_checksum (serToy docA)) ++ serToy docA ++ [0],
        index := (assocInsert docA.id
          { file_offset := vaultW.storage.file.length,
            length := (serToy docA).length % 2 ^ 32 }
          vaultW.storage.index) },
    initialized := true }

/-- The store after appending `docA` with the concrete codec. -/
def fmA : FMState := (FileManager.append serToy FMState.empty docA).1

/-- The store after appending `docA` then `docB`. -/
def fmAB : FMState := (FileManager.append serToy fmA docB).1


/-! ## Supporting lemmas -/

theorem leBytes_length (n x : Nat) : (leBytes n x).length = n := by
  induction n generalizing x with
  | zero => rfl
  | succ n ih => simp [leBytes, ih]

theorem decodeLE_leBytes (n x : Nat) : decodeLE (leBytes n x) = x % 256 ^ n := by
  induction n generalizing x with
  | zero => simp [leBytes, decodeLE, Nat.mod_one]
  | succ n ih =>
    have hx : x % 256 ^ (n + 1) = x % 256 + 256 * (x / 256 % 256 ^ n) := by
      have hpow : (256 : Nat) ^ (n + 1) = 256 * 256 ^ n := by ring
      have hp : 0 < (256 : Nat) ^ n := by positivity
      have hq : x / 256 % 256 ^ n < 256 ^ n := Nat.mod_lt _ hp
      have hr : x % 256 < 256 := Nat.mod_lt _ (by norm_num)
      conv_lhs => rw [← Nat.div_add_mod x 256, hpow]
      rw [Nat.add_mod, Nat.mul_mod_mul_left]
      rw [Nat.mod_eq_of_lt (show x % 256 < 256 * 256 ^ n by
        calc x % 256 < 256 := hr
        _ ≤ 256 * 256 ^ n := by nlinarith)]
      rw [Nat.mod_eq_of_lt (by nlinarith)]
      omega
    simp only [leBytes, decodeLE, List.foldr_cons]
    have := ih (x / 256)
    simp only [decodeLE] at this
    rw [this, hx]

theorem decodeLE_leBytes_of_lt {n x : Nat} (h : x < 256 ^ n) :
    decodeLE (leBytes n x) = x := by
  rw [decodeLE_leBytes, Nat.mod_eq_of_lt h]

theorem fnvStep_lt (h b : Nat) : fnvStep h b < 2 ^ 64 :=
  Nat.mod_lt _ (by positivity)

theorem foldl_fnvStep_lt (l : List Nat) (h : Nat) (hh : h < 2 ^ 64) :
    l.foldl fnvStep h < 2 ^ 64 := by
  induction l generalizing h with
  | nil => exact hh
  | cons b l ih => exact ih _ (fnvStep_lt _ _)

theorem calculate_checksum_lt (data : List Nat) :
    calculate_checksum data < 2 ^ 64 :=
  foldl_fnvStep_lt _ _ (by norm_num)

/-- The FNV prime is odd, hence coprime to `2^64`. -/
theorem fnv_prime_coprime : Nat.gcd (2 ^ 64) 0x100000001b3 = 1 := by
  have : Nat.Coprime 2 0x100000001b3 := by decide
  exact Nat.Coprime.pow_left 64 this

/-- Multiplication by the FNV prime is injective modulo `2^64`. -/
theorem fnv_mul_inj {x y : Nat} (hx : x < 2 ^ 64) (hy : y < 2 ^ 64)
    (h : x * 0x100000001b3 % 2 ^ 64 = y * 0x100000001b3 % 2 ^ 64) : x = y := by
  have hmod : x * 0x100000001b3 ≡ y * 0x100000001b3 [MOD 2 ^ 64] := h
  have := Nat.ModEq.cancel_right_of_coprime fnv_prime_coprime hmod
  have := this.eq_of_lt_of_lt hx hy
  exact this

/-- One hash step is injective in the accumulated hash. -/
theorem fnvStep_inj_hash {h h' b : Nat} (hh : h < 2 ^ 64) (hh' : h' < 2 ^ 64)
    (hb : b < 2 ^ 64) (hne : h ≠ h') : fnvStep h b ≠ fnvStep h' b := by
  intro heq
  apply hne
  have hx := Nat.xor_lt_two_pow hh hb
  have hy := Nat.xor_lt_two_pow hh' hb
  have := fnv_mul_inj hx hy heq
  have := congrArg (fun z => z ^^^ b) this
  simpa [Nat.xor_cancel_right] using this

/-- One hash step is injective in the incoming byte. -/
theorem fnvStep_inj_byte {h b b' : Nat} (hh : h < 2 ^ 64) (hb : b < 2 ^ 64)
    (hb' : b' < 2 ^ 64) (hne : b ≠ b') : fnvStep h b ≠ fnvStep h b' := by
  intro heq
  apply hne
  have hx := Nat.xor_lt_two_pow hh hb
  have hy := Nat.xor_lt_two_pow hh hb'
  have := fnv_mul_inj hx hy heq
  have := congrArg (fun z => h ^^^ z) this
  simpa [Nat.xor_cancel_left] using this

/-- Hashing a common suffix preserves distinctness of the accumulated hash. -/
theorem foldl_fnvStep_inj (suf : List Nat) (h h' : Nat)
    (hbytes : ∀ b ∈ suf, b < 2 ^ 64) (hh : h < 2 ^ 64) (hh' : h' < 2 ^ 64)
    (hne : h ≠ h') : suf.foldl fnvStep h ≠ suf.foldl fnvStep h' := by
  induction suf generalizing h h' with
  | nil => simpa using hne
  | cons b rest ih =>
    simp only [List.foldl_cons]
    have hb : b < 2 ^ 64 := hbytes b (List.mem_cons_self _ _)
    exact ih _ _ (fun x hx => hbytes x (List.mem_cons_of_mem _ hx))
      (fnvStep_lt _ _) (fnvStep_lt _ _)
      (fnvStep_inj_hash hh hh' hb hne)

/-- Changing one byte of the payload changes the FNV-1a checksum. -/
theorem calculate_checksum_flip (pre suf : List Nat) {b b' : Nat}
    (hsuf : ∀ x ∈ suf, x < 2 ^ 64) (hb : b < 2 ^ 64) (hb' : b' < 2 ^ 64)
    (hne : b ≠ b') :
    calculate_checksum (pre ++ b :: suf) ≠ calculate_checksum (pre ++ b' :: suf) := by
  unfold calculate_checksum
  rw [List.foldl_append, List.foldl_append, List.foldl_cons, List.foldl_cons]
  have hpre : pre.foldl fnvStep 0xcbf29ce484222325 < 2 ^ 64 :=
    foldl_fnvStep_lt _ _ (by norm_num)
  exact foldl_fnvStep_inj suf _ _ hsuf (fnvStep_lt _ _) (fnvStep_lt _ _)
    (fnvStep_inj_byte hpre hb hb' hne)

theorem bytesAt_append (pre mid post : List Nat) :
    bytesAt (pre ++ mid ++ post) pre.length mid.length = some mid := by
  unfold bytesAt
  rw [List.append_assoc, if_pos (by simp)]
  rw [List.drop_left, List.take_left]

/-- The byte image of a record, fully right-associated. -/
theorem encodeRecord_assoc (payload : List Nat) (t : Nat) :
    encodeRecord payload t =
      leBytes 4 payload.length ++
        (leBytes 8 (calculate_checksum payload) ++ (payload ++ [t])) := by
  simp [encodeRecord]

/-- Reading at the position of a well-formed record: the checksum always
verifies, so the outcome is decided by the tombstone byte and then by
deserialization. -/
theorem read_at_record (deser : List Nat → Option NVDocument)
    (fileA fileB payload : List Nat) (t : Nat) (hlen : payload.length < 2 ^ 32) :
    FileManager.read_at deser (fileA ++ encodeRecord payload t ++ fileB)
      { file_offset := fileA.length, length := payload.length } =
      (if t = 1 then .error (.DocumentNotFound "Document has been deleted")
       else match deser payload with
         | some d => .ok d
         | none => .error (.SerializationError "bincode")) := by
  have h4 : (leBytes 4 payload.length).length = 4 := leBytes_length _ _
  have h8 : (leBytes 8 (calculate_checksum payload)).length = 8 := leBytes_length _ _
  have hlen4 : payload.length < 256 ^ 4 := by
    have h2 : (256 : Nat) ^ 4 = 2 ^ 32 := by norm_num
    rw [h2]; exact hlen
  have hb1 : bytesAt (fileA ++ encodeRecord payload t ++ fileB) fileA.length 4 =
      some (leBytes 4 payload.length) := by
    have := bytesAt_append fileA (leBytes 4 payload.length)
      (leBytes 8 (calculate_checksum payload) ++ (payload ++ ([t] ++ fileB)))
    rw [h4] at this
    simpa [encodeRecord, List.append_assoc] using this
  have hb2 : bytesAt (fileA ++ encodeRecord payload t ++ fileB) (fileA.length + 4) 8 =
      some (leBytes 8 (calculate_checksum payload)) := by
    have := bytesAt_append (fileA ++ leBytes 4 payload.length)
      (leBytes 8 (calculate_checksum payload)) (payload ++ ([t] ++ fileB))
    rw [List.length_append, h4, h8] at this
    simpa [encodeRecord, List.append_assoc] using this
  have hb3 : bytesAt (fileA ++ encodeRecord payload t ++ fileB)
      (fileA.length + 12) payload.length = some payload := by
    have := bytesAt_append
      (fileA ++ leBytes 4 payload.length ++ leBytes 8 (calculate_checksum payload))
      payload ([t] ++ fileB)
    rw [List.length_append, List.length_append, h4, h8, Nat.add_assoc] at this
    simpa [encodeRecord, List.append_assoc] using this
  have hb4 : bytesAt (fileA ++ encodeRecord payload t ++ fileB)
      (fileA.length + 12 + payload.length) 1 = some [t] := by
    have := bytesAt_append
      (fileA ++ leBytes 4 payload.length ++ leBytes 8 (calculate_checksum payload) ++
        payload) [t] fileB
    have hlenpre : (fileA ++ leBytes 4 payload.length ++
        leBytes 8 (calculate_checksum payload) ++ payload).length =
        fileA.length + 12 + payload.length := by
      simp [h4, h8]; omega
    rw [hlenpre] at this
    simpa [encodeRecord, List.append_assoc] using this
  have hck : calculate_checksum payload < 256 ^ 8 := by
    have h2 : (256 : Nat) ^ 8 = 2 ^ 64 := by norm_num
    rw [h2]; exact calculate_checksum_lt payload
  simp only [FileManager.read_at, hb1, decodeLE_leBytes_of_lt hlen4, hb2,
    decodeLE_leBytes_of_lt hck, hb3, hb4,
    ne_eq, not_true_eq_false, if_false, ite_false]
  by_cases ht : t = 1
  · subst ht; simp
  · simp [ht]

/-- Reading a record whose stored checksum disagrees with the checksum of
the payload bytes fails with the corruption error, before the tombstone and
deserialization steps are reached. -/
theorem read_at_corrupt (deser : List Nat → Option NVDocument)
    (fileA fileB payload : List Nat) (cks t : Nat)
    (hlen : payload.length < 2 ^ 32) (hcks : cks < 2 ^ 64)
    (hne : calculate_checksum payload ≠ cks) :
    FileManager.read_at deser
      (fileA ++ (leBytes 4 payload.length ++ leBytes 8 cks ++ payload ++ [t]) ++ fileB)
      { file_offset := fileA.length, length := payload.length } =
      .error (.StorageError "Checksum mismatch - data corruption detected") := by
  have h4 : (leBytes 4 payload.length).length = 4 := leBytes_length _ _
  have h8 : (leBytes 8 cks).length = 8 := leBytes_length _ _
  have hlen4 : payload.length < 256 ^ 4 := by
    have h2 : (256 : Nat) ^ 4 = 2 ^ 32 := by norm_num
    rw [h2]; exact hlen
  have hck : cks < 256 ^ 8 := by
    have h2 : (256 : Nat) ^ 8 = 2 ^ 64 := by norm_num
    rw [h2]; exact hcks
  have hb1 : bytesAt
      (fileA ++ (leBytes 4 payload.length ++ leBytes 8 cks ++ payload ++ [t]) ++ fileB)
      fileA.length 4 = some (leBytes 4 payload.length) := by
    have := bytesAt_append fileA (leBytes 4 payload.length)
      (leBytes 8 cks ++ (payload ++ ([t] ++ fileB)))
    rw [h4] at this
    simpa [List.append_assoc] using this
  have hb2 : bytesAt
      (fileA ++ (leBytes 4 payload.length ++ leBytes 8 cks ++ payload ++ [t]) ++ fileB)
      (fileA.length + 4) 8 = some (leBytes 8 cks) := by
    have := bytesAt_append (fileA ++ leBytes 4 payload.length)
      (leBytes 8 cks) (payload ++ ([t] ++ fileB))
    rw [List.length_append, h4, h8] at this
    simpa [List.append_assoc] using this
  have hb3 : bytesAt
      (fileA ++ (leBytes 4 payload.length ++ leBytes 8 cks ++ payload ++ [t]) ++ fileB)
      (fileA.length + 12) payload.length = some payload := by
    have := bytesAt_append
      (fileA ++ leBytes 4 payload.length ++ leBytes 8 cks) payload ([t] ++ fileB)
    rw [List.length_append, List.length_append, h4, h8, Nat.add_assoc] at this
    simpa [List.append_assoc] using this
  have hb4 : bytesAt
      (fileA ++ (leBytes 4 payload.length ++ leBytes 8 cks ++ payload ++ [t]) ++ fileB)
      (fileA.length + 12 + payload.length) 1 = some [t] := by
    have := bytesAt_append
      (fileA ++ leBytes 4 payload.length ++ leBytes 8 cks ++ payload) [t] fileB
    have hlenpre : (fileA ++ leBytes 4 payload.length ++ leBytes 8 cks ++
        payload).length = fileA.length + 12 + payload.length := by
      simp [h4, h8]; omega
    rw [hlenpre] at this
    simpa [List.append_assoc] using this
  simp only [FileManager.read_at, hb1, decodeLE_leBytes_of_lt hlen4, hb2,
    decodeLE_leBytes_of_lt hck, hb3, hb4]
  simp [hne]

/-- Overwriting the tombstone byte of an encoded record, at index
`4 + 8 + length`, rewrites just the liveness marker. -/
theorem encodeRecord_set_tombstone (p : List Nat) (t t' : Nat) :
    (encodeRecord p t).set (12 + p.length) t' = encodeRecord p t' := by
  unfold encodeRecord
  have hpre : (leBytes 4 p.length ++ leBytes 8 (calculate_checksum p) ++ p).length =
      12 + p.length := by
    simp [leBytes_length]; omega
  rw [List.set_append, if_neg (by omega)]
  rw [hpre]
  simp

/-- Overwriting the tombstone byte of a record in the middle of the log
rewrites just that record's liveness marker. -/
theorem set_tombstone_middle (fileA fileB p : List Nat) (t t' : Nat) :
    (fileA ++ encodeRecord p t ++ fileB).set (fileA.length + 12 + p.length) t' =
      fileA ++ encodeRecord p t' ++ fileB := by
  have henc : (encodeRecord p t).length = 13 + p.length := by
    simp [encodeRecord, leBytes_length]; omega
  rw [List.set_append, if_pos (by simp [henc]; omega)]
  rw [List.set_append, if_neg (by omega)]
  have hidx : fileA.length + 12 + p.length - fileA.length = 12 + p.length := by omega
  rw [hidx, encodeRecord_set_tombstone]


/-- The connector loop of `matches_query` is the left fold over the
connectors zipped with the conditions from index `i + 1` on. -/
theorem matchLoop_eq_foldl (doc : NVDocument) (conds : List QueryCondition)
    (ops : List LogicalOperator) (r : Bool) (i : Nat) :
    matchLoop doc conds r i ops =
      (ops.zip (conds.drop (i + 1))).foldl
        (fun acc p => applyLogical p.1 acc (evaluate_condition doc p.2)) r := by
  induction ops generalizing r i with
  | nil => simp [matchLoop]
  | cons op rest ih =>
    simp only [matchLoop]
    cases hc : conds[i + 1]? with
    | none =>
      have hnil : conds.drop (i + 1) = [] := by
        rw [List.drop_eq_nil_iff]
        exact List.getElem?_eq_none_iff.mp hc
      simp [hnil]
    | some c =>
      have hlt : i + 1 < conds.length := by
        by_contra hge
        rw [List.getElem?_eq_none_iff.mpr (by omega)] at hc
        cases hc
      have hdrop : conds.drop (i + 1) = c :: conds.drop (i + 2) := by
        rw [List.drop_eq_getElem_cons hlt]
        rw [List.getElem?_eq_getElem hlt] at hc
        rw [Option.some_inj.mp hc]
      rw [hdrop, List.zip_cons_cons, List.foldl_cons]
      exact ih _ (i + 1)

/-- `ratAbs` coincides with the lattice absolute value on `ℚ`. -/
theorem ratAbs_eq_abs (q : ℚ) : ratAbs q = |q| := by
  unfold ratAbs
  by_cases h : q.num < 0
  · rw [if_pos h, abs_of_neg (Rat.num_neg.mp h)]
  · rw [if_neg h, abs_of_nonneg]
    have : ¬q < 0 := fun hq => h (Rat.num_neg.mpr hq)
    exact le_of_not_lt this



/-! ## Claims -/

/-- C5: for a query with `n ≥ 1` conditions and `n - 1` connectors the match
result is the strict left-to-right fold (condition 0 first, then each
subsequent condition combined via the preceding connector, with no
precedence); a query with zero conditions matches every document; and a
condition on an absent field evaluates to false for every operator. -/
theorem matches_query_left_fold :
    (∀ (doc : NVDocument) (q : NVQuery) (c0 : QueryCondition) (cs : List QueryCondition),
        q.conditions = c0 :: cs →
        q.logical_operators.length = q.conditions.length - 1 →
        matches_query doc q = specLeftFold doc c0 (q.logical_operators.zip cs)) ∧
    (∀ (doc : NVDocument) (q : NVQuery), q.conditions = [] →
        matches_query doc q = true) ∧
    (∀ (doc : NVDocument) (c : QueryCondition), doc.get c.field = none →
        evaluate_condition doc c = false) := by
  refine ⟨?_, ?_, ?_⟩
  · intro doc q c0 cs hconds _hlen
    simp only [matches_query, hconds]
    rw [matchLoop_eq_foldl]
    simp [specLeftFold, hconds]
  · intro doc q hconds
    simp [matches_query, hconds]
  · intro doc c hget
    simp [evaluate_condition, hget]

/-- Witness for C5 at a concrete document and concrete queries. -/
theorem matches_query_left_fold_witness :
    matches_query docW qTwoW =
      specLeftFold docW condNameW (qTwoW.logical_operators.zip [condAgeW]) ∧
    matches_query docW qEmptyW = true ∧
    evaluate_condition docW { field := "height", operator := .Equals, value := .null } = false :=
  ⟨matches_query_left_fold.1 docW qTwoW condNameW [condAgeW] rfl (by decide),
   matches_query_left_fold.2.1 docW qEmptyW rfl,
   matches_query_left_fold.2.2 docW _ rfl⟩

/-- C9: `filter` is total for every connector/condition count mismatch (it
never produces an invalid-query error), and the match result is always the
left fold over the connectors zipped with the conditions after the first —
i.e. over the first `min(connector count, condition count - 1)` connectors,
surplus connectors and unreachable conditions being silently ignored. -/
theorem filter_total_and_match_truncates :
    (∀ (documents : List NVDocument) (q : NVQuery),
        ∃ results, QueryProcessor.filter documents q = .ok results) ∧
    (∀ (doc : NVDocument) (q : NVQuery) (c0 : QueryCondition) (cs : List QueryCondition),
        q.conditions = c0 :: cs →
        matches_query doc q = specLeftFold doc c0 (q.logical_operators.zip cs)) := by
  constructor
  · intro documents q
    unfold QueryProcessor.filter
    by_cases h : documents.isEmpty
    · exact ⟨[], by rw [if_pos h]⟩
    · exact ⟨_, by rw [if_neg h]⟩
  · intro doc q c0 cs hconds
    simp only [matches_query, hconds]
    rw [matchLoop_eq_foldl]
    simp [specLeftFold, hconds]

/-- Witness for C9 at the malformed concrete queries (two connectors for one
condition, and one connector for three conditions). -/
theorem filter_total_and_match_truncates_witness :
    (∃ results, QueryProcessor.filter [docW] qSurplusW = .ok results) ∧
    matches_query docW qSurplusW =
      specLeftFold docW condNameW (qSurplusW.logical_operators.zip []) ∧
    matches_query docW qDeficitW =
      specLeftFold docW condNameW (qDeficitW.logical_operators.zip [condAgeW, condNameW]) :=
  ⟨filter_total_and_match_truncates.1 [docW] qSurplusW,
   filter_total_and_match_truncates.2 docW qSurplusW condNameW [] rfl,
   filter_total_and_match_truncates.2 docW qDeficitW condNameW [condAgeW, condNameW] rfl⟩

/-- C8: when the right operand of `In`/`NotIn` is not a sequence value and
the field is present, `In` evaluates to false and `NotIn` to true (`NotIn`
is the exact negation of `In` even for a non-sequence right operand). -/
theorem in_notin_nonarray :
    ∀ (doc : NVDocument) (f : String) (v rhs : NVValue),
      doc.get f = some v → rhs.kind ≠ .array →
      evaluate_condition doc { field := f, operator := .In, value := rhs } = false ∧
      evaluate_condition doc { field := f, operator := .NotIn, value := rhs } = true := by
  intro doc f v rhs hget hkind
  have harr : value_in_array v rhs = false := by
    cases rhs
    case array items => simp [NVValue.kind] at hkind
    all_goals simp [value_in_array]
  simp [evaluate_condition, hget, compare_values, harr]

/-- Witness for C8: `In`/`NotIn` against a plain number right operand. -/
theorem in_notin_nonarray_witness :
    evaluate_condition docW { field := "age", operator := .In, value := .number 5 } = false ∧
    evaluate_condition docW { field := "age", operator := .NotIn, value := .number 5 } = true :=
  in_notin_nonarray docW "age" (.number 23) (.number 5) rfl (by decide)

/-- C2 counterexample: structural self-equality fails for sequences and
field maps — `values_equal` falls through to the catch-all `false` arm, so
an array (and an object) is not even equal to an identical copy of itself. -/
theorem values_equal_array_not_reflexive :
    values_equal (.array []) (.array []) = false ∧
    values_equal (.object []) (.object []) = false :=
  ⟨rfl, rfl⟩

/-- C2 (amended): the equality used by `Equals`/`NotEquals`/`In`/`NotIn` is
structural on the scalar shapes (null, boolean, string), uses an epsilon
tolerance of `f64::EPSILON` for numbers, and makes values of different
shapes unequal; but sequence and field-map values are never equal to any
value, not even to a structurally identical copy of themselves. -/
theorem values_equal_spec :
    (values_equal .null .null = true) ∧
    (∀ a b : Bool, values_equal (.bool a) (.bool b) = true ↔ a = b) ∧
    (∀ x y : ℚ, values_equal (.number x) (.number y) = true ↔ |x - y| < f64Epsilon) ∧
    (∀ s u : String, values_equal (.str s) (.str u) = true ↔ s = u) ∧
    (∀ v w : NVValue, v.kind ≠ w.kind → values_equal v w = false) ∧
    (∀ items v, values_equal (.array items) v = false) ∧
    (∀ fields v, values_equal (.object fields) v = false) := by
  refine ⟨rfl, ?_, ?_, ?_, ?_, ?_, ?_⟩
  · intro a b
    simp [values_equal]
  · intro x y
    rw [show values_equal (.number x) (.number y) = decide (ratAbs (x - y) < f64Epsilon) from rfl]
    rw [decide_eq_true_iff, ratAbs_eq_abs]
  · intro s u
    simp [values_equal]
  · intro v w hkind
    cases v <;> cases w <;> first
      | rfl
      | (exfalso; exact hkind rfl)
  · intro items v
    cases v <;> rfl
  · intro fields v
    cases v <;> rfl

/-- Witness for C2's amended statement, discharging the cross-shape
hypothesis at a concrete pair. -/
theorem values_equal_spec_witness :
    values_equal .null (.bool true) = false :=
  values_equal_spec.2.2.2.2.1 .null (.bool true) (by decide)


theorem charsCompare_eq_iff (as bs : List Char) :
    documentOrdering.charsCompare as bs = .eq ↔ as = bs := by
  induction as generalizing bs with
  | nil =>
    cases bs with
    | nil => simp [documentOrdering.charsCompare]
    | cons b bs => simp [documentOrdering.charsCompare]
  | cons a as ih =>
    cases bs with
    | nil => simp [documentOrdering.charsCompare]
    | cons b bs =>
      by_cases hab : a.toNat < b.toNat
      · simp only [documentOrdering.charsCompare, if_pos hab]
        constructor
        · intro h; cases h
        · rintro ⟨⟩
          exact absurd hab (lt_irrefl _)
      · by_cases hba : b.toNat < a.toNat
        · simp only [documentOrdering.charsCompare, if_neg hab, if_pos hba]
          constructor
          · intro h; cases h
          · rintro ⟨⟩
            exact absurd hba (lt_irrefl _)
        · have hval : a.toNat = b.toNat := le_antisymm (le_of_not_lt hba) (le_of_not_lt hab)
          have haeq : a = b := Char.ext (UInt32.ext hval)
          subst haeq
          simp only [documentOrdering.charsCompare, if_neg hab, if_neg hba]
          rw [ih bs]
          simp

theorem charsCompare_lt_iff (as bs : List Char) :
    documentOrdering.charsCompare as bs = .lt ↔ charLex as bs := by
  induction as generalizing bs with
  | nil =>
    cases bs with
    | nil =>
      simp only [documentOrdering.charsCompare]
      constructor
      · intro h; cases h
      · intro h; cases h
    | cons b bs =>
      simp only [documentOrdering.charsCompare]
      constructor
      · intro _; exact List.Lex.nil
      · intro _; trivial
  | cons a as ih =>
    cases bs with
    | nil =>
      simp only [documentOrdering.charsCompare]
      constructor
      · intro h; cases h
      · intro h; cases h
    | cons b bs =>
      by_cases hab : a.toNat < b.toNat
      · simp only [documentOrdering.charsCompare, if_pos hab]
        constructor
        · intro _; exact List.Lex.rel hab
        · intro _; trivial
      · by_cases hba : b.toNat < a.toNat
        · simp only [documentOrdering.charsCompare, if_neg hab, if_pos hba]
          constructor
          · intro h; cases h
          · intro h
            cases h with
            | rel h => exact absurd h hab
            | cons h => exact absurd hba (lt_irrefl _)
        · have hval : a.toNat = b.toNat := le_antisymm (le_of_not_lt hba) (le_of_not_lt hab)
          have haeq : a = b := Char.ext (UInt32.ext hval)
          subst haeq
          simp only [documentOrdering.charsCompare, if_neg hab]
          rw [ih bs]
          constructor
          · intro h; exact List.Lex.cons h
          · intro h
            cases h with
            | rel h => exact absurd h hab
            | cons h => exact h

/-- C7: the document comparator is type-aware (numbers numerically, strings
lexicographically, booleans with false before true), documents missing the
sort field order after present ones ascending, pairs that are both missing
or of incomparable types compare equal and keep their relative order under
the (stable) sort, the descending flag reverses the whole comparator, and
the spec's `{a:1}, {b:2}` example sorts as required. -/
theorem sort_documents_spec :
    (∀ (f : String) (a b : NVDocument) (x y : ℚ),
        a.get f = some (.number x) → b.get f = some (.number y) →
        ((documentOrdering f a b = .lt ↔ x < y) ∧
         (documentOrdering f a b = .gt ↔ y < x) ∧
         (documentOrdering f a b = .eq ↔ x = y))) ∧
    (∀ (f : String) (a b : NVDocument) (x y : String),
        a.get f = some (.str x) → b.get f = some (.str y) →
        ((documentOrdering f a b = .lt ↔ charLex x.data y.data) ∧
         (documentOrdering f a b = .eq ↔ x = y))) ∧
    (∀ (f : String) (a b : NVDocument) (x y : Bool),
        a.get f = some (.bool x) → b.get f = some (.bool y) →
        documentOrdering f a b =
          (if x = y then .eq else if x then .gt else .lt)) ∧
    (∀ (f : String) (a b : NVDocument) (v : NVValue),
        a.get f = some v → b.get f = none → documentOrdering f a b = .lt) ∧
    (∀ (f : String) (a b : NVDocument) (v : NVValue),
        a.get f = none → b.get f = some v → documentOrdering f a b = .gt) ∧
    (∀ (f : String) (a b : NVDocument),
        a.get f = none → b.get f = none → documentOrdering f a b = .eq) ∧
    (∀ (f : String) (a b : NVDocument) (v w : NVValue),
        a.get f = some v → b.get f = some w →
        ¬(v.kind = w.kind ∧
            (v.kind = NVKind.number ∨ v.kind = NVKind.str ∨ v.kind = NVKind.bool)) →
        documentOrdering f a b = .eq) ∧
    (∀ (f : String) (desc : Bool) (a b : NVDocument) (docs : List NVDocument),
        sortOrdering f desc a b = .eq → [a, b].Sublist docs →
        [a, b].Sublist (sort_documents docs f desc)) ∧
    (∀ (f : String) (a b : NVDocument),
        sortOrdering f true a b = (sortOrdering f false a b).swap) ∧
    (sort_documents [docM1, docM2] "a" false = [docM1, docM2] ∧
     sort_documents [docM1, docM2] "a" true = [docM2, docM1]) := by
  refine ⟨?_, ?_, ?_, ?_, ?_, ?_, ?_, ?_, ?_, ?_, ?_⟩
  · intro f a b x y ha hb
    have hred : documentOrdering f a b =
        if x < y then .lt else if y < x then .gt else .eq := by
      unfold documentOrdering
      rw [ha, hb]
    rw [hred]
    rcases lt_trichotomy x y with h | h | h
    · rw [if_pos h]
      refine ⟨by simp [h], ?_, ?_⟩
      · simp only [reduceCtorEq, false_iff]
        exact fun hyx => absurd (lt_trans h hyx) (lt_irrefl _)
      · simp only [reduceCtorEq, false_iff]
        exact fun hxy => absurd h (hxy ▸ lt_irrefl _)
    · subst h
      rw [if_neg (lt_irrefl _), if_neg (lt_irrefl _)]
      simp
    · rw [if_neg (fun hxy => absurd (lt_trans h hxy) (lt_irrefl _)), if_pos h]
      refine ⟨?_, by simp [h], ?_⟩
      · simp only [reduceCtorEq, false_iff]
        exact fun hxy => absurd (lt_trans h hxy) (lt_irrefl _)
      · simp only [reduceCtorEq, false_iff]
        exact fun hxy => absurd h (hxy ▸ lt_irrefl _)
  · intro f a b x y ha hb
    have hred : documentOrdering f a b =
        documentOrdering.charsCompare x.data y.data := by
      unfold documentOrdering
      rw [ha, hb]
    rw [hred]
    refine ⟨charsCompare_lt_iff _ _, ?_⟩
    rw [charsCompare_eq_iff]
    constructor
    · intro h; exact String.ext h
    · intro h; rw [h]
  · intro f a b x y ha hb
    have hred : documentOrdering f a b = documentOrdering.boolCompare x y := by
      unfold documentOrdering
      rw [ha, hb]
    rw [hred]
    cases x <;> cases y <;> rfl
  · intro f a b v ha hb
    have hred : documentOrdering f a b = .lt := by
      unfold documentOrdering
      rw [ha, hb]
      cases v <;> rfl
    exact hred
  · intro f a b v ha hb
    have hred : documentOrdering f a b = .gt := by
      unfold documentOrdering
      rw [ha, hb]
    exact hred
  · intro f a b ha hb
    unfold documentOrdering
    rw [ha, hb]
  · intro f a b v w ha hb hmix
    have hred : ∀ o : Ordering,
        (match some v, some w with
          | some (NVValue.number x), some (NVValue.number y) =>
            if x < y then Ordering.lt else if y < x then Ordering.gt else Ordering.eq
          | some (NVValue.str x), some (NVValue.str y) =>
            documentOrdering.charsCompare x.data y.data
          | some (NVValue.bool x), some (NVValue.bool y) =>
            documentOrdering.boolCompare x y
          | some _, none => Ordering.lt
          | none, some _ => Ordering.gt
          | _, _ => Ordering.eq) = o → documentOrdering f a b = o := by
      intro o ho
      unfold documentOrdering
      rw [ha, hb]
      exact ho
    apply hred
    cases v <;> cases w <;> first
      | rfl
      | (exfalso; apply hmix; exact ⟨rfl, Or.inl rfl⟩)
      | (exfalso; apply hmix; exact ⟨rfl, Or.inr (Or.inl rfl)⟩)
      | (exfalso; apply hmix; exact ⟨rfl, Or.inr (Or.inr rfl)⟩)
  · intro f desc a b docs heq hsub
    exact List.pair_sublist_insertionSort (by simp [sortLe, heq]) hsub
  · intro f a b
    simp [sortOrdering]
  · exact rfl
  · exact rfl

/-- Witness for C7: the comparator facts instantiated on the spec's example
documents, plus the stability conjunct on a concrete equal pair. -/
theorem sort_documents_spec_witness :
    documentOrdering "a" docM1 docM2 = .lt ∧
    documentOrdering "b" docM1 docM2 = .gt ∧
    documentOrdering "c" docM1 docM2 = .eq ∧
    [docM1, docM2].Sublist (sort_documents [docM1, docM2] "c" false) :=
  ⟨sort_documents_spec.2.2.2.1 "a" docM1 docM2 (.number 1) rfl rfl,
   sort_documents_spec.2.2.2.2.1 "b" docM1 docM2 (.number 2) rfl rfl,
   sort_documents_spec.2.2.2.2.2.1 "c" docM1 docM2 rfl rfl,
   sort_documents_spec.2.2.2.2.2.2.2.1 "c" false docM1 docM2 [docM1, docM2]
     (by rfl) (List.Sublist.refl _)⟩


/-- C4: flipping any single payload byte of an encoded record changes the
64-bit FNV-1a checksum (computed with wrap-around multiplication mod
`2^64`), so reading that record back fails with the corruption storage
error instead of returning a document.  The payload is split as
`pre ++ b :: suf`, so `pre.length` ranges over every byte position; the
file passed to `read_at` is the original encoding (original length field
and checksum) with the single byte `b` replaced by `b'`. -/
theorem checksum_flip_detected
    (deser : List Nat → Option NVDocument) (pre suf : List Nat) (b b' tomb : Nat)
    (hbytes : ∀ x ∈ pre ++ b :: suf, x < 256) (hb' : b' < 256) (hne : b' ≠ b)
    (hlen : (pre ++ b :: suf).length < 2 ^ 32) :
    calculate_checksum (pre ++ b' :: suf) ≠ calculate_checksum (pre ++ b :: suf) ∧
    FileManager.read_at deser
      (leBytes 4 (pre ++ b :: suf).length ++
        leBytes 8 (calculate_checksum (pre ++ b :: suf)) ++ (pre ++ b' :: suf) ++ [tomb])
      { file_offset := 0, length := (pre ++ b :: suf).length } =
      .error (.StorageError "Checksum mismatch - data corruption detected") := by
  have hsuf : ∀ x ∈ suf, x < 2 ^ 64 := by
    intro x hx
    have : x < 256 := hbytes x (by simp [hx])
    omega
  have hblt : b < 2 ^ 64 := by
    have : b < 256 := hbytes b (by simp)
    omega
  have hb64 : b' < 2 ^ 64 := by omega
  have hflip : calculate_checksum (pre ++ b' :: suf) ≠
      calculate_checksum (pre ++ b :: suf) :=
    calculate_checksum_flip pre suf hsuf hb64 hblt hne
  refine ⟨hflip, ?_⟩
  have hlens : (pre ++ b' :: suf).length = (pre ++ b :: suf).length := by simp
  have := read_at_corrupt deser [] [] (pre ++ b' :: suf)
    (calculate_checksum (pre ++ b :: suf)) tomb
    (by rw [hlens]; exact hlen) (calculate_checksum_lt _) hflip
  simpa [hlens] using this

/-- Witness for C4: flipping the only payload byte of a one-byte record. -/
theorem checksum_flip_detected_witness :
    calculate_checksum ([] ++ 1 :: []) ≠ calculate_checksum ([] ++ 0 :: []) ∧
    FileManager.read_at deserToy
      (leBytes 4 ([] ++ 0 :: []).length ++
        leBytes 8 (calculate_checksum ([] ++ 0 :: [])) ++ ([] ++ 1 :: []) ++ [0])
      { file_offset := 0, length := ([] ++ 0 :: []).length } =
      .error (.StorageError "Checksum mismatch - data corruption detected") :=
  checksum_flip_detected deserToy [] [] 0 1 0 (by decide) (by decide) (by decide)
    (by decide)

/-- C6: for an indexed identifier whose record is live in the log,
`mark_deleted` overwrites exactly the tombstone byte at
`offset + 4 + 8 + length` with `1`, leaves every other byte and the whole
index unchanged, and a subsequent `read` of that identifier fails not-found
through the tombstone check (the checksum still verifies and the index
still holds the entry). -/
theorem mark_deleted_spec (deser : List Nat → Option NVDocument) (st : FMState)
    (id : String) (fileA fileB payload : List Nat) (off L : Nat)
    (hlook : assocLookup id st.index = some { file_offset := off, length := L })
    (hfile : st.file = fileA ++ encodeRecord payload 0 ++ fileB)
    (hoff : fileA.length = off) (hL : payload.length = L)
    (hlen : payload.length < 2 ^ 32) :
    ∃ st', FileManager.mark_deleted st id = .ok st' ∧
      st'.index = st.index ∧
      st'.file = fileA ++ encodeRecord payload 1 ++ fileB ∧
      st'.file[off + 4 + 8 + L]? = some 1 ∧
      (∀ j, j ≠ off + 4 + 8 + L → st'.file[j]? = st.file[j]?) ∧
      FileManager.read deser st' id =
        .error (.DocumentNotFound "Document has been deleted") := by
  subst hoff
  subst hL
  have henc : (encodeRecord payload 0).length = 13 + payload.length := by
    simp [encodeRecord, leBytes_length]; omega
  have hidx : fileA.length + 4 + 8 + payload.length =
      fileA.length + 12 + payload.length := by omega
  have hsetfile : st.file.set (fileA.length + 4 + 8 + payload.length) 1 =
      fileA ++ encodeRecord payload 1 ++ fileB := by
    rw [hfile, hidx, set_tombstone_middle]
  have hmd : FileManager.mark_deleted st id =
      .ok { st with file := st.file.set (fileA.length + 4 + 8 + payload.length) 1 } := by
    unfold FileManager.mark_deleted
    rw [hlook]
  refine ⟨_, hmd, rfl, hsetfile, ?_, ?_, ?_⟩
  · show (st.file.set (fileA.length + 4 + 8 + payload.length) 1)[fileA.length + 4 +
      8 + payload.length]? = some 1
    apply List.getElem?_set_self
    rw [hfile]
    simp [henc]
    omega
  · intro j hj
    exact List.getElem?_set_ne (fun h => hj h.symm)
  · show FileManager.read deser
      { st with file := st.file.set (fileA.length + 4 + 8 + payload.length) 1 } id = _
    unfold FileManager.read
    rw [show ({ st with
        file := st.file.set (fileA.length + 4 + 8 + payload.length) 1 } : FMState).index
        = st.index from rfl, hlook]
    rw [show ({ st with
        file := st.file.set (fileA.length + 4 + 8 + payload.length) 1 } : FMState).file
        = st.file.set (fileA.length + 4 + 8 + payload.length) 1 from rfl, hsetfile]
    show FileManager.read_at deser (fileA ++ encodeRecord payload 1 ++ fileB)
      { file_offset := fileA.length, length := payload.length } = _
    rw [read_at_record deser fileA fileB payload 1 hlen]
    simp

/-- Witness for C6: soft-deleting the single record appended for `docA`. -/
theorem mark_deleted_spec_witness :
    ∃ st', FileManager.mark_deleted (FileManager.append serToy FMState.empty docA).1
        "a" = .ok st' ∧
      st'.index = (FileManager.append serToy FMState.empty docA).1.index ∧
      st'.file = [] ++ encodeRecord [7] 1 ++ [] ∧
      st'.file[0 + 4 + 8 + 1]? = some 1 ∧
      (∀ j, j ≠ 0 + 4 + 8 + 1 →
        st'.file[j]? = (FileManager.append serToy FMState.empty docA).1.file[j]?) ∧
      FileManager.read deserToy st' "a" =
        .error (.DocumentNotFound "Document has been deleted") :=
  mark_deleted_spec deserToy (FileManager.append serToy FMState.empty docA).1
    "a" [] [] [7] 0 1 (by rfl) (by simp [FileManager.append, FMState.empty,
      serToy, docA, encodeRecord]) (by rfl) (by rfl) (by decide)

/-- Applying a fold of `NVDocument::set` steps never changes the creation
timestamp or the identifier. -/
theorem foldl_set_preserves (now : Nat) (us : List UpdateOperation) (d : NVDocument) :
    ((us.foldl (fun d u => NVDocument.set d u.field u.value now) d).created_at =
      d.created_at) ∧
    ((us.foldl (fun d u => NVDocument.set d u.field u.value now) d).id = d.id) := by
  induction us generalizing d with
  | nil => exact ⟨rfl, rfl⟩
  | cons u us ih =>
    simp only [List.foldl_cons]
    exact (ih (NVDocument.set d u.field u.value now))

/-- After at least one `NVDocument::set` step the modification timestamp is
the current instant. -/
theorem foldl_set_updated_at (now : Nat) (us : List UpdateOperation)
    (d : NVDocument) (hd : d.updated_at = now) :
    (us.foldl (fun d u => NVDocument.set d u.field u.value now) d).updated_at = now := by
  induction us generalizing d with
  | nil => exact hd
  | cons u us ih =>
    simp only [List.foldl_cons]
    exact ih (NVDocument.set d u.field u.value now) rfl

/-- C10: `update_by_id` with an empty update list still succeeds and appends
a brand-new physical record whose payload serializes the document exactly as
read (same field map, creation and modification timestamps), repointing the
index entry at the new offset; the modification timestamp is bumped to `now`
only when at least one update operation is applied. -/
theorem update_by_id_empty_spec (ser : NVDocument → List Nat)
    (deser : List Nat → Option NVDocument) (vs : VaultState) (id : String)
    (doc : NVDocument) (now : Nat)
    (hinit : vs.initialized = true)
    (hread : FileManager.read deser vs.storage id = .ok doc) :
    (NeuralVault.update_by_id ser deser vs id [] now =
      .ok { vs with storage :=
        { file := vs.storage.file ++ leBytes 4 (ser doc).length ++
            leBytes 8 (calculate_checksum (ser doc)) ++ ser doc ++ [0],
          index := assocInsert doc.id
            { file_offset := vs.storage.file.length,
              length := (ser doc).length % 2 ^ 32 }
            vs.storage.index } }) ∧
    (∀ (u : UpdateOperation) (us : List UpdateOperation),
      (((u :: us).foldl (fun d uu => NVDocument.set d uu.field uu.value now)
          doc).updated_at = now) ∧
      (((u :: us).foldl (fun d uu => NVDocument.set d uu.field uu.value now)
          doc).created_at = doc.created_at)) := by
  constructor
  · unfold NeuralVault.update_by_id
    rw [hinit]
    rw [hread]
    simp [FileManager.append]
  · intro u us
    constructor
    · simp only [List.foldl_cons]
      exact foldl_set_updated_at now us _ rfl
    · simp only [List.foldl_cons]
      have h1 := (foldl_set_preserves now us (NVDocument.set doc u.field u.value now)).1
      rw [h1]
      rfl


/-- Witness for C10: an empty update of the single stored document. -/
theorem update_by_id_empty_spec_witness :
    (NeuralVault.update_by_id serToy deserToy vaultW "a" [] 5 =
      .ok vaultAfterUpdateW) ∧
    (∀ (u : UpdateOperation) (us : List UpdateOperation),
      (((u :: us).foldl (fun d uu => NVDocument.set d uu.field uu.value 5)
          docA).updated_at = 5) ∧
      (((u :: us).foldl (fun d uu => NVDocument.set d uu.field uu.value 5)
          docA).created_at = docA.created_at)) :=
  update_by_id_empty_spec serToy deserToy vaultW "a" docA 5 rfl rfl


/-- C1 evaluation: after `append A; append B; mark_deleted A`, the log holds
a 14-byte tombstoned record for `A` followed by the live record for `B` at
byte offset 14; `rebuild_index` recomputes offsets from the pre-filtered
live-only document list, so it records `B` at offset 0 — the bytes of the
tombstoned record are not skipped — and a point read of `B` through the
rebuilt index lands on `A`'s tombstoned record and fails not-found, even
though `B`'s record is live and readable at its true offset 14. -/
theorem rebuild_index_misaligned :
    ∃ st3 st4,
      FileManager.mark_deleted fmAB "a" = .ok st3 ∧
      FileManager.rebuild_index serToy deserToy st3 = .ok st4 ∧
      assocLookup "b" st4.index = some { file_offset := 0, length := 1 } ∧
      FileManager.read_at deserToy st3.file { file_offset := 14, length := 1 } =
        .ok docB ∧
      FileManager.read deserToy st4 "b" =
        .error (.DocumentNotFound "Document has been deleted") :=
  ⟨_, _, rfl, rfl, rfl, rfl, rfl⟩

/-- The scan loop stops cleanly (with no error) as soon as fewer than the
4 header bytes remain, for any fuel. -/
theorem scanAllLoop_stop (deser : List Nat → Option NVDocument) (file : List Nat)
    (fuel pos : Nat) (h : file.length < pos + 4) :
    scanAllLoop deser file fuel pos = .ok [] := by
  cases fuel with
  | zero => rfl
  | succ fuel =>
    simp only [scanAllLoop]
    rw [if_pos h]

/-- Scanning a log holding exactly one record whose tombstone byte is not 0
produces no documents. -/
theorem scan_all_single_dead (deser : List Nat → Option NVDocument)
    (p : List Nat) (t : Nat) (hlen : p.length < 2 ^ 32) (ht : t ≠ 0) :
    FileManager.scan_all deser (encodeRecord p t) = .ok [] := by
  have h4 : (leBytes 4 p.length).length = 4 := leBytes_length _ _
  have h8 : (leBytes 8 (calculate_checksum p)).length = 8 := leBytes_length _ _
  have hflen : (encodeRecord p t).length = 13 + p.length := by
    simp [encodeRecord, h4, h8]; omega
  have hcond : ¬((encodeRecord p t).length < 0 + 4) := by rw [hflen]; omega
  have hlen4 : p.length < 256 ^ 4 := by
    have h2 : (256 : Nat) ^ 4 = 2 ^ 32 := by norm_num
    rw [h2]; exact hlen
  have htake : ((encodeRecord p t).drop 0).take 4 = leBytes 4 p.length := by
    simp only [List.drop_zero]
    conv_lhs => rw [show (4 : Nat) = (leBytes 4 p.length).length from h4.symm]
    rw [encodeRecord_assoc, List.take_left]
  have hdata : bytesAt (encodeRecord p t) 12 p.length = some p := by
    have := bytesAt_append (leBytes 4 p.length ++ leBytes 8 (calculate_checksum p)) p [t]
    rw [List.length_append, h4, h8] at this
    simpa [encodeRecord, List.append_assoc] using this
  have htomb : bytesAt (encodeRecord p t) (12 + p.length) 1 = some [t] := by
    have := bytesAt_append (leBytes 4 p.length ++ leBytes 8 (calculate_checksum p) ++ p)
      [t] []
    have hlenpre : (leBytes 4 p.length ++ leBytes 8 (calculate_checksum p) ++ p).length =
        12 + p.length := by
      simp [h4, h8]; omega
    rw [hlenpre] at this
    simpa [encodeRecord, List.append_assoc] using this
  have hrec : scanAllLoop deser (encodeRecord p t) (13 + p.length) (13 + p.length) =
      .ok [] := scanAllLoop_stop _ _ _ _ (by rw [hflen]; omega)
  unfold FileManager.scan_all
  rw [hflen]
  simp only [scanAllLoop]
  rw [if_neg hcond]
  simp only [htake, decodeLE_leBytes_of_lt hlen4, Nat.zero_add, hdata, htomb, hrec]
  simp [ht]

/-- C3 counterexample: create one document in collection `users`, update it
once (with an empty operation list — still a real `update_by_id` call that
appends a fresh record), then soft-delete it; `collections()` still reports
`users`, because `kill_by_id` tombstones only the latest record while the
superseded record from the update remains live-flagged in the log and
`scan_all` picks it up. -/
theorem collections_after_update_then_delete :
    ∃ vs1 vs2 vs3,
      NeuralVault.create serToy { storage := FMState.empty, initialized := true }
        "a" "users" [] 0 = .ok (vs1, "a") ∧
      NeuralVault.update_by_id serToy deserToy vs1 "a" [] 0 = .ok vs2 ∧
      NeuralVault.kill_by_id vs2 "a" = .ok vs3 ∧
      NeuralVault.collections deserToy vs3 = .ok ["users"] :=
  ⟨_, _, _, rfl, rfl, rfl, rfl⟩

/-- C3 (amended): starting from an empty store, if the only document ever
created in a collection is soft-deleted via `kill_by_id` and was never
updated between creation and deletion (so its identifier has exactly one
physical record), the collection name does not appear in `collections()`. -/
theorem collections_excludes_tombstoned_single (ser : NVDocument → List Nat)
    (deser : List Nat → Option NVDocument) (id collection : String)
    (data : List (String × NVValue)) (now : Nat)
    (hlen : (ser (NVDocument.new id collection data now)).length < 2 ^ 32) :
    ∃ vs1 vs2,
      NeuralVault.create ser { storage := FMState.empty, initialized := true }
        id collection data now = .ok (vs1, id) ∧
      NeuralVault.kill_by_id vs1 id = .ok vs2 ∧
      NeuralVault.collections deser vs2 = .ok [] := by
  have hmod : (ser (NVDocument.new id collection data now)).length % 2 ^ 32 =
      (ser (NVDocument.new id collection data now)).length := Nat.mod_eq_of_lt hlen
  refine ⟨⟨⟨encodeRecord (ser (NVDocument.new id collection data now)) 0,
      [(id, ⟨0, (ser (NVDocument.new id collection data now)).length⟩)]⟩, true⟩,
    ⟨⟨encodeRecord (ser (NVDocument.new id collection data now)) 1,
      [(id, ⟨0, (ser (NVDocument.new id collection data now)).length⟩)]⟩, true⟩,
    ?_, ?_, ?_⟩
  · have hlen' : (ser (NVDocument.mk id collection data now now false)).length <
        4294967296 := by simpa [NVDocument.new] using hlen
    simp [NeuralVault.create, FileManager.append, FMState.empty, encodeRecord,
      assocInsert, hmod, NVDocument.new, hlen']
  · simp [NeuralVault.kill_by_id, FileManager.mark_deleted, assocLookup,
      encodeRecord_set_tombstone]
  · unfold NeuralVault.collections
    simp only [Bool.not_true, Bool.false_eq_true, if_false]
    rw [scan_all_single_dead deser _ 1 hlen one_ne_zero]
    simp [dedupAdjacent]

/-- Witness for the amended C3 statement at the concrete codec. -/
theorem collections_excludes_tombstoned_single_witness :
    ∃ vs1 vs2,
      NeuralVault.create serToy { storage := FMState.empty, initialized := true }
        "a" "users" [] 0 = .ok (vs1, "a") ∧
      NeuralVault.kill_by_id vs1 "a" = .ok vs2 ∧
      NeuralVault.collections deserToy vs2 = .ok [] :=
  collections_excludes_tombstoned_single serToy deserToy "a" "users" [] 0 (by decide)
